import Mathlib

/-
  Verification development for a Go source-to-source migration tool that
  rewrites an AWS Lambda handler file into a Knative-style handler file.

  The definitions below are a shallow embedding of the tool's own Go code
  (package main; functions findLambdaHandler, analyzeHandlerSignature,
  analyzeHandlerSignatureWithTypes, transformAST, removeLambdaImport,
  checkImport, createImportSpec, addRequiredImports, createHandlerStruct,
  createNewFunc, createHandleMethod).  The Go AST nodes that those
  functions inspect or build are modelled by small inductive types; Go
  slices of declarations are Lean lists, and the one place where the Go
  code mutates a slice while ranging over it (removeLambdaImport) is
  modelled by an explicit backing-array simulation.
-/

namespace LambdaMigrator

/-- Model of the Go AST type expressions the tool inspects: `ast.Ident`,
`ast.SelectorExpr` (with an arbitrary base expression), `ast.StarExpr`,
and a catch-all for every other type syntax (array, map, func, ...),
which the tool never looks inside. -/
inductive GoType where
  | ident (name : String)
  | sel (x : GoType) (field : String)
  | star (x : GoType)
  | otherTy
  deriving DecidableEq

/-- Model of `ast.Field`: a list of declared names and one type.
`len(Params.List)` in the Go code counts fields, not names. -/
structure GoField where
  names : List String
  ty : GoType
  deriving DecidableEq

/-- Model of the Go expressions appearing in the statements the tool
scans or synthesizes: identifiers, selectors, calls, basic literals
(kind is the token name, value the literal text including quotes for
strings), binary expressions (op is the token name), `&x`, and composite
literals `T\x7b\x7d`. -/
inductive GoExpr where
  | ident (name : String)
  | sel (x : GoExpr) (field : String)
  | call (fn : GoExpr) (args : List GoExpr)
  | lit (kind : String) (value : String)
  | binary (op : String) (x : GoExpr) (y : GoExpr)
  | unaryAnd (x : GoExpr)
  | compositeLit (tyName : String)

/-- Model of the Go statements the tool scans or synthesizes:
expression statements, `:=` assignments, `if` statements (cond plus
body block), and `return`. -/
inductive GoStmt where
  | exprStmt (e : GoExpr)
  | assignDefine (lhs : List GoExpr) (rhs : List GoExpr)
  | ifStmt (cond : GoExpr) (body : List GoStmt)
  | ret (results : List GoExpr)

/-- Model of `ast.ImportSpec`: optional explicit alias and the (unquoted)
module path.  The Go code stores the path with quotes and trims them
with `strings.Trim`; the model stores the trimmed path directly. -/
structure ImpSpec where
  name : Option String
  path : String
  deriving DecidableEq

/-- Model of the top-level declarations: function declarations (with an
optional receiver, a name, parameter and result field lists, and an
optional body - `nil` bodies are legal Go syntax), `import` blocks
(GenDecl with Tok IMPORT), the synthesized empty struct type
declaration, and a catch-all for any other declaration (var, const,
other type declarations), which the tool never touches. -/
inductive GoDecl where
  | funcDecl (recv : Option GoField) (name : String) (params : List GoField)
      (results : List GoField) (body : Option (List GoStmt))
  | impDecl (specs : List ImpSpec)
  | typeStructDecl (name : String)
  | otherDecl (tag : Nat)

/-- Model of `ast.File`: the declaration list.  The tool only ever reads
and rewrites `file.Decls`. -/
structure GoFile where
  decls : List GoDecl

/-- `HandlerSignature` from the source: the four classification flags. -/
structure HandlerSignature where
  hasContext : Bool
  hasInput : Bool
  hasOutput : Bool
  hasError : Bool
  deriving DecidableEq

/-- `HandlerReference` from the source: bare name and qualified name. -/
structure HandlerReference where
  simpleName : String
  qualifiedName : String
  deriving DecidableEq

/-- Keep the later of two scan results: the Go callback overwrites the
reference on every match, so the last match in traversal order wins. -/
def pick (later earlier : Option HandlerReference) : Option HandlerReference :=
  match later with
  | some r => some r
  | none => earlier

/-- The callee test in `findLambdaHandler`: a `SelectorExpr` whose `X` is
the identifier `lambda` and whose `Sel` is `Start`. -/
def isLambdaStartFun : GoExpr → Bool
  | .sel (.ident "lambda") "Start" => true
  | _ => false

/-- The argument shapes `findLambdaHandler` accepts: a bare identifier
gives `simpleName = qualifiedName = name`; a selector whose base is an
identifier gives `simpleName = Sel`, `qualifiedName = pkg.Sel`.  Every
other shape falls through (no reference, traversal continues). -/
def refOfArg : GoExpr → Option HandlerReference
  | .ident n => some ⟨n, n⟩
  | .sel (.ident p) s => some ⟨s, p ++ "." ++ s⟩
  | _ => none

/-- The match performed at each `CallExpr`: callee is `lambda.Start`,
the argument list is non-empty, and the first argument has a supported
shape.  A zero-argument call or an unsupported first argument yields no
reference (the callback falls through and returns true). -/
def startArgRef (fn : GoExpr) (args : List GoExpr) : Option HandlerReference :=
  if isLambdaStartFun fn then
    match args with
    | a :: _ => refOfArg a
    | [] => none
  else none

mutual

/-- Depth-first scan of one expression, mirroring the inner `ast.Inspect`
in `findLambdaHandler`: at a matched `lambda.Start` call the callback
records the reference and returns false, pruning that call's children;
otherwise it descends into the children in syntactic order, the last
match winning. -/
def scanExpr : GoExpr → Option HandlerReference
  | .ident _ => none
  | .lit _ _ => none
  | .compositeLit _ => none
  | .sel x _ => scanExpr x
  | .unaryAnd x => scanExpr x
  | .binary _ x y => pick (scanExpr y) (scanExpr x)
  | .call fn args =>
    match startArgRef fn args with
    | some r => some r
    | none => scanExprList args (scanExpr fn)

/-- Scan a list of expressions left to right, threading the accumulated
(latest) match. -/
def scanExprList : List GoExpr → Option HandlerReference → Option HandlerReference
  | [], acc => acc
  | e :: rest, acc => scanExprList rest (pick (scanExpr e) acc)

end

mutual

/-- Scan one statement, descending into its expressions and nested
statements in the order `ast.Walk` visits them. -/
def scanStmt : GoStmt → Option HandlerReference
  | .exprStmt e => scanExpr e
  | .assignDefine lhs rhs => scanExprList rhs (scanExprList lhs none)
  | .ifStmt cond body => scanStmtList body (scanExpr cond)
  | .ret es => scanExprList es none

/-- Scan a list of statements left to right, threading the latest match. -/
def scanStmtList : List GoStmt → Option HandlerReference → Option HandlerReference
  | [], acc => acc
  | s :: rest, acc => scanStmtList rest (pick (scanStmt s) acc)

end

/-- Scan a whole function body. -/
def scanStmts (body : List GoStmt) : Option HandlerReference :=
  scanStmtList body none

/-- The bodies of every function declaration named `main`, in declaration
order.  The outer `ast.Inspect` in `findLambdaHandler` sets `foundMain`
and runs the inner scan for each such declaration (the receiver is not
checked). -/
def mainBodies (f : GoFile) : List (Option (List GoStmt)) :=
  f.decls.filterMap (fun d =>
    match d with
    | .funcDecl _ n _ _ body => if n = "main" then some body else none
    | _ => none)

/-- Outcome of `findLambdaHandler`.  `crash` models the nil-pointer
dereference that `ast.Inspect(fn.Body, ...)` performs when a `main`
declaration has no body (`fn.Body == nil`): `ast.Walk` reads `n.List`
from the nil `*ast.BlockStmt`. -/
inductive FindOutcome where
  | ok (ref : HandlerReference)
  | entryNotFound
  | startCallNotFound
  | crash
  deriving DecidableEq

/-- Run the inner scan over the bodies of the `main` declarations in
order; a later match overwrites an earlier one, and a nil body crashes
the traversal. -/
def runMains : Option HandlerReference → List (Option (List GoStmt)) → Option (Option HandlerReference)
  | acc, [] => some acc
  | _, none :: _ => none
  | acc, some stmts :: rest => runMains (pick (scanStmts stmts) acc) rest

/-- `findLambdaHandler` from the source: error `main function not found`
when no declaration named `main` exists; error `lambda.Start() call not
found in main function` when the scan finds no supported call; otherwise
the recorded reference. -/
def findLambdaHandler (f : GoFile) : FindOutcome :=
  let ms := mainBodies f
  if ms.isEmpty then .entryNotFound
  else
    match runMains none ms with
    | none => .crash
    | some none => .startCallNotFound
    | some (some r) => .ok r

/-- The parameter-classification block of `analyzeHandlerSignature`
(lines 102-121): a first parameter whose type syntax is the selector
`context.Context` sets `hasContext`, and then `hasInput` iff there are
exactly two parameter fields; a selector of any other spelling sets
nothing (the `else if` is attached to the selector type assertion); a
non-selector first parameter sets `hasInput` iff it is the only one. -/
def classifyParams (ps : List GoField) : HandlerSignature :=
  match ps with
  | [] => ⟨false, false, false, false⟩
  | f :: _ =>
    match f.ty with
    | .sel (.ident x) s =>
      if x = "context" ∧ s = "Context" then ⟨true, ps.length == 2, false, false⟩
      else ⟨false, false, false, false⟩
    | .sel _ _ => ⟨false, false, false, false⟩
    | _ =>
      if ps.length == 1 then ⟨false, true, false, false⟩
      else ⟨false, false, false, false⟩

/-- The result-classification block of `analyzeHandlerSignature`
(lines 124-138): one result sets `hasError` iff its type is the
identifier `error`; exactly two results set both `hasOutput` and
`hasError` (the second type is not checked); any other count sets
nothing. -/
def classifyResults (s : HandlerSignature) (rs : List GoField) : HandlerSignature :=
  match rs with
  | [r] => if r.ty = GoType.ident "error" then { s with hasError := true } else s
  | [_, _] => { s with hasOutput := true, hasError := true }
  | _ => s

/-- Classification of one declaration's parameter and result lists, as
`analyzeHandlerSignature` performs it once the declaration is found. -/
def classifyFuncDecl (ps rs : List GoField) : HandlerSignature :=
  classifyResults (classifyParams ps) rs

/-- `analyzeHandlerSignature` from the source: `ast.Inspect` stops at the
first function declaration whose name matches (top-level walk order is
declaration order; the receiver is not checked), classifies it, and
errors (`handler function %s not found`) only when no declaration with
that name exists.  `none` models the error return. -/
def analyzeHandlerSignature (f : GoFile) (handlerName : String) : Option HandlerSignature :=
  f.decls.findSome? (fun d =>
    match d with
    | .funcDecl _ n ps rs _ =>
      if n = handlerName then some (classifyFuncDecl ps rs) else none
    | _ => none)


/-- Model of the `go/types` view of a type, as used by
`analyzeHandlerSignatureWithTypes`: a named type carries its defining
package's path (`none` for universe-scoped names such as `error`) and
its object name; every other type is kept abstract together with the
text its `String()` method produces. -/
inductive SemType where
  | named (pkgPath : Option String) (name : String)
  | unnamed (text : String)
  deriving DecidableEq

/-- The `String()` representation `go/types` produces: named types print
as `pkgpath.Name`, universe-scoped named types as their bare name. -/
def SemType.str : SemType → String
  | .named (some p) n => p ++ "." ++ n
  | .named none n => n
  | .unnamed t => t

/-- The parameter-classification block of
`analyzeHandlerSignatureWithTypes` (lines 692-708): a first parameter
whose type is the named type `Context` of package path `context` sets
`hasContext`, and then `hasInput` iff there are exactly two parameters;
any other named type sets nothing; a non-named single parameter sets
`hasInput`. -/
def classifySemParams (ps : List SemType) : HandlerSignature :=
  match ps with
  | [] => ⟨false, false, false, false⟩
  | t :: _ =>
    match t with
    | .named p n =>
      if p = some "context" ∧ n = "Context" then ⟨true, ps.length == 2, false, false⟩
      else ⟨false, false, false, false⟩
    | .unnamed _ =>
      if ps.length == 1 then ⟨false, true, false, false⟩
      else ⟨false, false, false, false⟩

/-- The result-classification block of `analyzeHandlerSignatureWithTypes`
(lines 711-723): one result sets `hasError` iff its `String()` is
`error`; exactly two results set both `hasOutput` and `hasError`. -/
def classifySemResults (s : HandlerSignature) (rs : List SemType) : HandlerSignature :=
  match rs with
  | [t] => if t.str = "error" then { s with hasError := true } else s
  | [_, _] => { s with hasOutput := true, hasError := true }
  | _ => s

/-- The signature classification `analyzeHandlerSignatureWithTypes`
performs once the handler's `types.Func` object is resolved.  (The
surrounding `packages.Load` machinery performs file-system and module
resolution and is outside the embedding; its classification of the
resolved `*types.Signature` is what the equivalence claims speak of.) -/
def classifySemSig (ps rs : List SemType) : HandlerSignature :=
  classifySemResults (classifySemParams ps) rs

/-- Position of the first `.` in a string, as `strings.Index(s, ".")`
computes it (a `.` byte cannot occur inside a multi-byte UTF-8 sequence,
so the byte index and the character index pick the same split). -/
def splitOnFirstDot (s : String) : Option (String × String) :=
  match s.toList.findIdx? (fun c => c = '.') with
  | some i => some (⟨s.toList.take i⟩, ⟨s.toList.drop (i + 1)⟩)
  | none => none

/-- The handler-expression construction in `createHandleMethod`
(lines 442-454): a name containing a `.` becomes a qualified selector
split at the first `.`; otherwise a bare identifier. -/
def handlerFuncExpr (handlerFuncName : String) : GoExpr :=
  match splitOnFirstDot handlerFuncName with
  | some (p, f) => .sel (.ident p) f
  | none => .ident handlerFuncName

/-- The body-read statement `body, _ := io.ReadAll(r.Body)` synthesized
when the handler takes input; the read error is bound to `_`. -/
def readBodyStmt (ioAlias : String) : GoStmt :=
  .assignDefine [.ident "body", .ident "_"]
    [.call (.sel (.ident ioAlias) "ReadAll") [.sel (.ident "r") "Body"]]

/-- The error guard synthesized when the handler returns an error:
`if err != nil` logs through the hardcoded identifier `log`, writes
status 500 through `w`, and returns. -/
def errGuardStmt : GoStmt :=
  .ifStmt (.binary "NEQ" (.ident "err") (.ident "nil"))
    [.exprStmt (.call (.sel (.ident "log") "Printf")
        [.lit "STRING" "\"Handler error: %v\"", .ident "err"]),
     .exprStmt (.call (.sel (.ident "w") "WriteHeader") [.lit "INT" "500"]),
     .ret []]

/-- The output-encoding statement synthesized when the handler returns
output: `json.NewEncoder(w).Encode(result)` through the hardcoded
identifier `json`. -/
def encodeResultStmt : GoStmt :=
  .exprStmt (.call
    (.sel (.call (.sel (.ident "json") "NewEncoder") [.ident "w"]) "Encode")
    [.ident "result"])

/-- The argument list assembled for the handler call (lines 432-438):
`ctx` iff the handler takes context, then `body` iff it takes input. -/
def handlerCallArgs (sig : HandlerSignature) : List GoExpr :=
  (if sig.hasContext then [GoExpr.ident "ctx"] else [])
    ++ (if sig.hasInput then [GoExpr.ident "body"] else [])

/-- The handler-call statement (lines 457-501): bindings chosen by the
`(hasOutput, hasError)` combination, in the source's if/else order. -/
def handlerCallStmt (handlerFuncName : String) (sig : HandlerSignature) : GoStmt :=
  let fn := handlerFuncExpr handlerFuncName
  let args := handlerCallArgs sig
  if sig.hasOutput ∧ sig.hasError then
    .assignDefine [.ident "result", .ident "err"] [.call fn args]
  else if sig.hasError then
    .assignDefine [.ident "err"] [.call fn args]
  else if sig.hasOutput then
    .assignDefine [.ident "result"] [.call fn args]
  else
    .exprStmt (.call fn args)

/-- The fixed parameter list of the synthesized `Handle` method:
`ctx` of the resolved context alias's `Context`, `w` of the resolved
HTTP alias's `ResponseWriter`, and `r` a pointer to its `Request`. -/
def handleMethodParams (contextAlias httpAlias : String) : List GoField :=
  [⟨["ctx"], .sel (.ident contextAlias) "Context"⟩,
   ⟨["w"], .sel (.ident httpAlias) "ResponseWriter"⟩,
   ⟨["r"], .star (.sel (.ident httpAlias) "Request")⟩]

/-- `createHandleMethod` from the source: builds the body statement list
in order (read iff input, then the call, then the guard iff error, then
the encode iff output) and wraps it in the method declaration with
receiver `h *Handler`. -/
def createHandleMethod (handlerFuncName contextAlias httpAlias ioAlias : String)
    (sig : HandlerSignature) : GoDecl :=
  let stmts : List GoStmt :=
    (if sig.hasInput then [readBodyStmt ioAlias] else [])
      ++ [handlerCallStmt handlerFuncName sig]
      ++ (if sig.hasError then [errGuardStmt] else [])
      ++ (if sig.hasOutput then [encodeResultStmt] else [])
  .funcDecl (some ⟨["h"], .star (.ident "Handler")⟩) "Handle"
    (handleMethodParams contextAlias httpAlias) [] (some stmts)

/-- `createHandlerStruct` from the source: the empty `Handler` struct
type declaration. -/
def createHandlerStruct : GoDecl :=
  .typeStructDecl "Handler"

/-- `createNewFunc` from the source: `func New() *Handler` returning
`&Handler\x7b\x7d`. -/
def createNewFunc : GoDecl :=
  .funcDecl none "New" [] [⟨[], .star (.ident "Handler")⟩]
    (some [.ret [.unaryAnd (.compositeLit "Handler")]])


/-- Substring test, as `strings.Contains` performs it: the byte sequence
of the pattern occurs contiguously in the byte sequence of the string
(for these ASCII patterns, character-level infix agrees). -/
def containsSub (s pat : String) : Bool :=
  decide (pat.toList <:+: s.toList)

/-- The spec filter of `removeLambdaImport` (lines 251-259): keep every
spec whose path does not contain `aws-lambda-go`. -/
def filterLambdaSpecs (specs : List ImpSpec) : List ImpSpec :=
  specs.filter (fun sp => !(containsSub sp.path "aws-lambda-go"))

/-- One iteration of the loop in `removeLambdaImport`, on the explicit
backing-array model of the Go slice.  `b` is the backing array of the
slice captured by the `range` statement (length fixed at the original
declaration count), `c` the current length of `file.Decls`, and `i` the
loop index.  A `range` loop reads its element from the captured header,
whose backing the in-place `append` keeps rewriting, so the element at
step `i` is `b[i]` for the current `b`.  When the filtered spec list is
empty the code runs `file.Decls = append(file.Decls[:i], file.Decls[i+1:]...)`:
for `i < c` this shifts positions `i+1 .. c-1` down one, leaves
positions `c-1 .. n-1` untouched in the backing, and shortens the slice
to `c-1`; for `i ≥ c` the slice expression `file.Decls[i+1:]` is out of
range and the program panics (`none`).  When the filtered list is
non-empty the code writes the filtered specs through the `*ast.GenDecl`
pointer, modelled as a write to slot `i` (slots beyond `c` never rejoin
`file.Decls`, so a value write there is observationally harmless; in Go
such a stale slot still aliases its shifted-down live copy, so a filter
applied there also reaches the live block - the model writes only the
slot itself, which never changes which declarations are imports, and
the concrete inputs used below have no filterable stale slots). -/
def rliStep (b : List GoDecl) (c : Nat) (i : Nat) : Option (List GoDecl × Nat) :=
  match b.get? i with
  | none => some (b, c)
  | some d =>
    match d with
    | .impDecl specs =>
      let newSpecs := filterLambdaSpecs specs
      if newSpecs.isEmpty then
        if i + 1 ≤ c then
          some (b.take i ++ (b.drop (i + 1)).take (c - 1 - i) ++ b.drop (c - 1), c - 1)
        else none
      else some (b.set i (.impDecl newSpecs), c)
    | _ => some (b, c)

/-- The loop of `removeLambdaImport`: `steps` counts the remaining
iterations of the `range` (fixed at the original length), `i` the
current index. -/
def rliLoop : Nat → Nat → List GoDecl → Nat → Option (List GoDecl × Nat)
  | 0, _, b, c => some (b, c)
  | steps + 1, i, b, c =>
    match rliStep b c i with
    | none => none
    | some (b2, c2) => rliLoop steps (i + 1) b2 c2

/-- `removeLambdaImport` from the source: run the range loop over the
declaration list and read back the final `file.Decls` (the first `c`
slots of the backing).  `none` models the out-of-range panic described
at `rliStep`. -/
def removeLambdaImport (f : GoFile) : Option GoFile :=
  (rliLoop f.decls.length 0 f.decls f.decls.length).map (fun p => ⟨p.1.take p.2⟩)

/-- `importInfo` from the source: a required module's path, its current
alias, whether the file already imports it, and whether the signature
requires it. -/
structure ImpInfo where
  path : String
  aliasName : String
  hasImport : Bool
  needed : Bool
  deriving DecidableEq

/-- The five-entry requirement table built at the top of
`addRequiredImports`: context and net/http always needed, io iff input,
encoding/json iff output, log iff error, with their default aliases. -/
def initImports (sig : HandlerSignature) : List ImpInfo :=
  [⟨"context", "context", false, true⟩,
   ⟨"net/http", "http", false, true⟩,
   ⟨"io", "io", false, sig.hasInput⟩,
   ⟨"encoding/json", "json", false, sig.hasOutput⟩,
   ⟨"log", "log", false, sig.hasError⟩]

/-- `checkImport` from the source: an existing spec whose path equals the
entry's path marks it present and, when the spec carries an explicit
name, overwrites the alias. -/
def checkImport (sp : ImpSpec) (info : ImpInfo) : ImpInfo :=
  if sp.path = info.path then
    { info with
      hasImport := true,
      aliasName := match sp.name with | some a => a | none => info.aliasName }
  else info

/-- The existing-import scan of `addRequiredImports` (lines 309-319):
every spec of every import block is run through `checkImport` against
every table entry. -/
def scanInfos (f : GoFile) (sig : HandlerSignature) : List ImpInfo :=
  f.decls.foldl
    (fun acc d =>
      match d with
      | .impDecl specs => specs.foldl (fun a sp => a.map (checkImport sp)) acc
      | _ => acc)
    (initImports sig)

/-- Table lookup by path. -/
def infoOf (infos : List ImpInfo) (p : String) : Option ImpInfo :=
  infos.find? (fun i => i.path == p)

/-- The alias the rewriter reports for a module path (the table lookup
`imports[path].alias` in the source's return statements). -/
def aliasOf (infos : List ImpInfo) (p : String) : String :=
  match infoOf infos p with
  | some i => i.aliasName
  | none => ""

/-- The missing-import collection (lines 322-327).  The source iterates
a Go map, whose iteration order is unspecified and randomized at run
time; `order` is that iteration order, a permutation of the five paths. -/
def missingOf (order : List String) (infos : List ImpInfo) : List String :=
  order.filterMap (fun p =>
    match infoOf infos p with
    | some i => if i.needed && !i.hasImport then some p else none
    | none => none)

/-- Appending the missing specs to the first import block (lines
332-339): the loop returns at the first import declaration. -/
def addSpecsToFirstImp : List GoDecl → List ImpSpec → Option (List GoDecl)
  | [], _ => none
  | .impDecl specs :: rest, newSpecs => some (.impDecl (specs ++ newSpecs) :: rest)
  | d :: rest, ns =>
    match addSpecsToFirstImp rest ns with
    | some ds => some (d :: ds)
    | none => none

/-- Result of `addRequiredImports`: the rewritten file and the three
aliases the function returns (context, net/http, io). -/
structure ARIResult where
  file : GoFile
  ctxAlias : String
  httpAlias : String
  ioAlias : String

/-- `addRequiredImports` from the source: scan existing imports into the
table, collect the needed-but-missing paths in map-iteration order,
append them (via `createImportSpec`, alias-less) to the first import
block if one exists, otherwise prepend a fresh import block holding
every needed path (again in map-iteration order); return the table's
aliases for context, net/http and io. -/
def addRequiredImports (order : List String) (f : GoFile) (sig : HandlerSignature) :
    ARIResult :=
  let infos := scanInfos f sig
  let missing := missingOf order infos
  let declsOut :=
    if missing.isEmpty then f.decls
    else
      match addSpecsToFirstImp f.decls (missing.map (fun p => ⟨none, p⟩)) with
      | some ds => ds
      | none =>
        GoDecl.impDecl (order.filterMap (fun p =>
          match infoOf infos p with
          | some i => if i.needed then some (⟨none, p⟩ : ImpSpec) else none
          | none => none)) :: f.decls
  ⟨⟨declsOut⟩, aliasOf infos "context", aliasOf infos "net/http", aliasOf infos "io"⟩

/-- Whether a declaration is a function declaration named `main` (the
match the splice loop in `transformAST` performs). -/
def isMainFunc : GoDecl → Bool
  | .funcDecl _ n _ _ _ => n == "main"
  | _ => false

/-- The splice loop of `transformAST` (lines 225-242): at the first
declaration named `main`, replace it by the three synthesized
declarations and stop (`break`); the source expresses the same splice
as `decls[:i] ++ [struct, new, handle] ++ decls[i+1:]`. -/
def spliceAtFirstMain (ds : List GoDecl) (a b c : GoDecl) : List GoDecl :=
  match ds with
  | [] => []
  | d :: rest =>
    if isMainFunc d then a :: b :: c :: rest
    else d :: spliceAtFirstMain rest a b c

/-- `transformAST` from the source: remove the lambda import, add the
required imports (obtaining the three aliases), then splice the adapter
declarations in place of the first `main`.  `none` propagates the
removal loop's panic. -/
def transformAST (order : List String) (f : GoFile) (handlerFuncName : String)
    (sig : HandlerSignature) : Option GoFile :=
  match removeLambdaImport f with
  | none => none
  | some f1 =>
    let r := addRequiredImports order f1 sig
    some ⟨spliceAtFirstMain r.file.decls createHandlerStruct createNewFunc
      (createHandleMethod handlerFuncName r.ctxAlias r.httpAlias r.ioAlias sig)⟩

/-! Observation helpers used to state properties of declaration values. -/

/-- Body of a function declaration. -/
def bodyStmts : GoDecl → Option (List GoStmt)
  | .funcDecl _ _ _ _ b => b
  | _ => none

/-- Parameter fields of a function declaration. -/
def declParamsOf : GoDecl → List GoField
  | .funcDecl _ _ ps _ _ => ps
  | _ => []

/-- First statement of a declaration's body. -/
def bodyHead (d : GoDecl) : Option GoStmt :=
  (bodyStmts d).bind List.head?

/-- Last statement of a declaration's body. -/
def bodyLast (d : GoDecl) : Option GoStmt :=
  (bodyStmts d).bind List.getLast?

/-- First `if` statement of a declaration's body. -/
def guardOf (d : GoDecl) : Option GoStmt :=
  (bodyStmts d).bind (List.findSome? (fun s =>
    match s with
    | .ifStmt c b => some (GoStmt.ifStmt c b)
    | _ => none))

/-- Whether the file declares a function with the given name. -/
def hasFuncNamed (f : GoFile) (nm : String) : Bool :=
  f.decls.any (fun d =>
    match d with
    | .funcDecl _ n _ _ _ => n == nm
    | _ => false)

/-- The declarations that are not import blocks, in order. -/
def nonImpDecls (ds : List GoDecl) : List GoDecl :=
  ds.filter (fun d =>
    match d with
    | .impDecl _ => false
    | _ => true)

/-- Index of the first function declaration named `main`. -/
def firstMainIdx (ds : List GoDecl) : Option Nat :=
  ds.findIdx? isMainFunc

/-- The import paths of each declaration (empty for non-imports):
the part of a file the import rewriter is allowed to change. -/
def impPathsOf (f : GoFile) : List (List String) :=
  f.decls.map (fun d =>
    match d with
    | .impDecl sp => sp.map (fun x => x.path)
    | _ => [])

/-- Whether any import block still holds a path containing the
`aws-lambda-go` marker. -/
def hasLambdaImportPath (f : GoFile) : Bool :=
  f.decls.any (fun d =>
    match d with
    | .impDecl sp => sp.any (fun x => containsSub x.path "aws-lambda-go")
    | _ => false)

/-- The explicit alias the file declares for a module path, if any. -/
def declaredAliasFor (f : GoFile) (path : String) : Option String :=
  f.decls.findSome? (fun d =>
    match d with
    | .impDecl specs => specs.findSome? (fun sp => if sp.path = path then sp.name else none)
    | _ => none)

/-- The package identifier through which the synthesized `Handle`
method's error guard calls `Printf`. -/
def handleGuardLogName (f : GoFile) : Option String :=
  f.decls.findSome? (fun d =>
    match d with
    | .funcDecl _ "Handle" _ _ (some stmts) =>
      stmts.findSome? (fun s =>
        match s with
        | .ifStmt _ body =>
          (match body with
           | .exprStmt (.call (.sel (.ident nm) "Printf") _) :: _ => some nm
           | _ => none)
        | _ => none)
    | _ => none)

/-- A file holding exactly one declaration: `func main` with the given
body. -/
def mkMainOnly (b : List GoStmt) : GoFile :=
  ⟨[.funcDecl none "main" [] [] (some b)]⟩

/-- A `lambda.Start(args...)` expression statement. -/
def startCallStmt (args : List GoExpr) : GoStmt :=
  .exprStmt (.call (.sel (.ident "lambda") "Start") args)

/-! The nine canonical handler shapes. -/

/-- The flag combinations corresponding to the nine canonical handler
shapes: an output always comes paired with an error, and a handler with
parameters always returns at least an error. -/
def canonicalSig (s : HandlerSignature) : Bool :=
  (!s.hasOutput || s.hasError) && (s.hasError || (!s.hasContext && !s.hasInput))

/-! Spec-side description of the dispatch-method body (section 4.4 of
the specification), used to check the synthesizer against the claimed
fixed recipe.  These definitions follow the specification's wording;
`createHandleMethod` above follows the source. -/

/-- The handler reference as the spec words it: invoked through a
qualified selector exactly when the name contains a package prefix
(a `.`), split at the first `.`; a bare identifier otherwise. -/
def specHandlerRef (name : String) : GoExpr :=
  if name.toList.contains '.' then
    match splitOnFirstDot name with
    | some (p, f) => .sel (.ident p) f
    | none => .ident name
  else .ident name

/-- The call statement as the spec words it: results bound according to
the `(hasOutput, hasError)` combination - both flags give two bindings
`(result, err)`, error alone gives `err`, output alone gives `result`,
and neither gives a bare statement call. -/
def specCallBinding (fn : GoExpr) (args : List GoExpr) :
    Bool → Bool → GoStmt
  | true, true => .assignDefine [.ident "result", .ident "err"] [.call fn args]
  | false, true => .assignDefine [.ident "err"] [.call fn args]
  | true, false => .assignDefine [.ident "result"] [.call fn args]
  | false, false => .exprStmt (.call fn args)

/-- The dispatch-method body as the spec's fixed recipe words it: read
the request body into a buffer iff `hasInput` (read error discarded);
call the handler with the context value iff `hasContext` followed by
the buffer iff `hasInput`, bound per `(hasOutput, hasError)`; iff
`hasError` a guard that logs, writes 500 and returns, placed before
any encoding statement; iff `hasOutput` a JSON-encode statement last. -/
def specDispatchBody (name ioAlias : String) (sig : HandlerSignature) : List GoStmt :=
  (if sig.hasInput then [readBodyStmt ioAlias] else [])
    ++ [specCallBinding (specHandlerRef name)
          ((if sig.hasContext then [GoExpr.ident "ctx"] else [])
            ++ (if sig.hasInput then [GoExpr.ident "body"] else []))
          sig.hasOutput sig.hasError]
    ++ (if sig.hasError then [errGuardStmt] else [])
    ++ (if sig.hasOutput then [encodeResultStmt] else [])

/-- The source's first-dot split agrees with the spec's contains-a-dot
phrasing. -/
theorem handlerFuncExpr_eq_specHandlerRef (n : String) :
    handlerFuncExpr n = specHandlerRef n := by
  unfold handlerFuncExpr specHandlerRef
  by_cases hm : ('.') ∈ n.toList
  · have hc : n.toList.contains '.' = true := by simpa using hm
    rw [if_pos hc]
  · have hc : ¬ (n.toList.contains '.' = true) := by simpa using hm
    rw [if_neg hc]
    have h : n.toList.findIdx? (fun c => c = '.') = none := by
      rw [List.findIdx?_eq_none_iff]
      intro c hcm
      simp only [decide_eq_false_iff_not]
      intro he
      exact hm (he ▸ hcm)
    have h2 : List.findIdx? (fun c => decide (c = '.')) n.data = none := h
    simp [splitOnFirstDot, h2]

/-- C1: for every SignatureModel among the 9 canonical shapes, the
dispatch method synthesized by createHandleMethod is exactly the fixed
recipe: the request body is read into a buffer iff hasInput (the read
error discarded); the handler-call arguments are the context value iff
hasContext then the buffer iff hasInput, in that order; the call binds
(result, err) when hasOutput and hasError, only err when hasError
alone, only result when hasOutput alone, and is a bare statement call
when neither; the handler is invoked through a qualified selector
exactly when its name contains a package prefix and as a bare
identifier otherwise; when hasError the guard that logs, writes 500
and returns comes before any encoding statement; when hasOutput the
JSON-encode statement comes last. -/
theorem claim1_dispatch_recipe (nm ca ha ia : String) (sig : HandlerSignature)
    (hc : canonicalSig sig = true) :
    createHandleMethod nm ca ha ia sig =
      .funcDecl (some ⟨["h"], .star (.ident "Handler")⟩) "Handle"
        (handleMethodParams ca ha) [] (some (specDispatchBody nm ia sig)) := by
  obtain ⟨c, i, o, e⟩ := sig
  cases c <;> cases i <;> cases o <;> cases e <;>
    simp_all [canonicalSig, createHandleMethod, specDispatchBody, handlerCallStmt,
      specCallBinding, handlerCallArgs, handlerFuncExpr_eq_specHandlerRef]

/-- Witness for C1 at the `(ctx, in) -> (out, error)` shape with a
package-qualified handler name. -/
theorem claim1_witness :
    canonicalSig ⟨true, true, true, true⟩ = true ∧
      createHandleMethod "handler.HandleRequest" "context" "http" "io"
          ⟨true, true, true, true⟩ =
        .funcDecl (some ⟨["h"], .star (.ident "Handler")⟩) "Handle"
          (handleMethodParams "context" "http") []
          (some (specDispatchBody "handler.HandleRequest" "io" ⟨true, true, true, true⟩)) :=
  ⟨by decide,
   claim1_dispatch_recipe "handler.HandleRequest" "context" "http" "io"
     ⟨true, true, true, true⟩ (by decide)⟩

/-- C2: the classifier at the canonical shape `(in) → error` with the
input type spelled as a selector.  The source file declares
`func handleRequest(event json.RawMessage) error`; the claim requires
the SignatureModel `(hasInput, hasError)`, but the classifier's
single-non-context-parameter branch is attached to the non-selector
case, so a selector-typed lone parameter falls through and the code
returns the `() → error` model with `hasInput = false`. -/
theorem claim2_failing_eval :
    analyzeHandlerSignature
        ⟨[.funcDecl none "handleRequest"
            [⟨["event"], .sel (.ident "json") "RawMessage"⟩]
            [⟨[], .ident "error"⟩] (some [])]⟩ "handleRequest"
      = some ⟨false, false, false, true⟩ ∧
    (⟨false, false, false, true⟩ : HandlerSignature) ≠ ⟨false, true, false, true⟩ :=
  ⟨rfl, by decide⟩

/-- Counterexample to C4: a handler with two parameters whose first is
not `context.Context` (`func h(a int, b int) error`) is not one of the
9 canonical shapes, yet classification succeeds (returns a
SignatureModel) instead of failing. -/
theorem claim4_counterexample :
    (analyzeHandlerSignature
        ⟨[.funcDecl none "h" [⟨["a"], .ident "int"⟩, ⟨["b"], .ident "int"⟩]
            [⟨[], .ident "error"⟩] (some [])]⟩ "h").isSome = true :=
  rfl

/-- C4 (amended): signature classification never rejects a shape: for
any file and handler name it fails exactly when no function declaration
with that name exists in the file; any declaration that is found -
canonical or not - yields a SignatureModel computed by the flag rules. -/
theorem claim4_no_failure (f : GoFile) (nm : String) :
    analyzeHandlerSignature f nm = none ↔ hasFuncNamed f nm = false := by
  obtain ⟨ds⟩ := f
  simp only [analyzeHandlerSignature, hasFuncNamed]
  induction ds with
  | nil => simp
  | cons d rest ih =>
    cases d with
    | funcDecl recv n ps rs body =>
      by_cases hn : n = nm
      · subst hn
        simp [List.findSome?_cons, List.any_cons]
      · simp only [List.findSome?_cons, List.any_cons]
        simp [hn, ih]
    | impDecl sp =>
      simpa [List.findSome?_cons, List.any_cons] using ih
    | typeStructDecl tn =>
      simpa [List.findSome?_cons, List.any_cons] using ih
    | otherDecl tg =>
      simpa [List.findSome?_cons, List.any_cons] using ih

/-! Comparing the two classification strategies. -/

/-- Whether a type syntax is the literal selector `context.Context`
(what the local strategy treats as the context type). -/
def isCtxSelType : GoType → Bool
  | .sel (.ident x) f => decide (x = "context" ∧ f = "Context")
  | _ => false

/-- Whether a type syntax is a selector at all (the local strategy's
first type assertion). -/
def isSelType : GoType → Bool
  | .sel _ _ => true
  | _ => false

/-- Whether a semantic type is the named `Context` of package `context`
(what the cross-module strategy treats as the context type). -/
def isCtxNamedSem : SemType → Bool
  | .named p n => decide (p = some "context" ∧ n = "Context")
  | _ => false

/-- Whether a semantic type is a named type (the cross-module strategy's
first type assertion). -/
def isNamedSem : SemType → Bool
  | .named _ _ => true
  | _ => false

/-- A parameter's syntax and its type-checker resolution classify
consistently: it reads as `context.Context` exactly when it resolves to
the context package's `Context`, and it is spelled as a selector
exactly when it resolves to a named type. -/
def tyCompat (g : GoType) (t : SemType) : Prop :=
  (isCtxSelType g = true ↔ isCtxNamedSem t = true) ∧
    (isSelType g = true ↔ isNamedSem t = true)

/-- A sole result's syntax and resolution classify consistently: it is
spelled as the identifier `error` exactly when its resolved type prints
as `error`. -/
def resCompat (g : GoType) (t : SemType) : Prop :=
  g = GoType.ident "error" ↔ t.str = "error"

instance (g : GoType) (t : SemType) : Decidable (tyCompat g t) := by
  unfold tyCompat
  exact instDecidableAnd

instance (g : GoType) (t : SemType) : Decidable (resCompat g t) := by
  unfold resCompat
  exact instDecidableIff

/-- Counterexample to C3: a file that imports the context package under
the alias `ctx2` and declares `func h(c ctx2.Context) error`.  The type
checker resolves `ctx2.Context` to the named type `Context` of package
path `context` and `error` to the universe type printing as `error`,
so the cross-module strategy sets `hasContext`; the local strategy
compares the selector's base against the literal `context` and leaves
`hasContext` false.  The two applicable strategies disagree. -/
theorem claim3_counterexample :
    classifyFuncDecl [⟨["c"], .sel (.ident "ctx2") "Context"⟩] [⟨[], .ident "error"⟩]
      ≠ classifySemSig [.named (some "context") "Context"] [.named none "error"] := by
  decide

/-- Common shape of both parameter classifiers, abstracted over the two
head-type tests and the parameter count. -/
def absParams (isCtx isSelLike : Bool) (len : Nat) : HandlerSignature :=
  if len = 0 then ⟨false, false, false, false⟩
  else if isCtx then ⟨true, len == 2, false, false⟩
  else if isSelLike then ⟨false, false, false, false⟩
  else if len == 1 then ⟨false, true, false, false⟩
  else ⟨false, false, false, false⟩

theorem bool_eq_of_iff {a b : Bool} (h : a = true ↔ b = true) : a = b := by
  cases a <;> cases b <;> simp_all

/-- The local parameter classifier factors through `absParams`. -/
theorem classifyParams_abs (f : GoField) (tl : List GoField) :
    classifyParams (f :: tl) = absParams (isCtxSelType f.ty) (isSelType f.ty) (tl.length + 1) := by
  obtain ⟨nms, gty⟩ := f
  cases gty with
  | sel base fld =>
    cases base with
    | ident x =>
      by_cases hx : x = "context" ∧ fld = "Context"
      · simp [classifyParams, absParams, isCtxSelType, isSelType, hx]
      · simp [classifyParams, absParams, isCtxSelType, isSelType, hx]
    | sel a b => simp [classifyParams, absParams, isCtxSelType, isSelType]
    | star a => simp [classifyParams, absParams, isCtxSelType, isSelType]
    | otherTy => simp [classifyParams, absParams, isCtxSelType, isSelType]
  | ident n =>
    by_cases hl : tl.length + 1 = 1
    · simp [classifyParams, absParams, isCtxSelType, isSelType, hl]
    · simp [classifyParams, absParams, isCtxSelType, isSelType, hl]
  | star a =>
    by_cases hl : tl.length + 1 = 1
    · simp [classifyParams, absParams, isCtxSelType, isSelType, hl]
    · simp [classifyParams, absParams, isCtxSelType, isSelType, hl]
  | otherTy =>
    by_cases hl : tl.length + 1 = 1
    · simp [classifyParams, absParams, isCtxSelType, isSelType, hl]
    · simp [classifyParams, absParams, isCtxSelType, isSelType, hl]

/-- The cross-module parameter classifier factors through `absParams`. -/
theorem classifySemParams_abs (t : SemType) (tl : List SemType) :
    classifySemParams (t :: tl) = absParams (isCtxNamedSem t) (isNamedSem t) (tl.length + 1) := by
  cases t with
  | named p n =>
    by_cases hx : p = some "context" ∧ n = "Context"
    · simp [classifySemParams, absParams, isCtxNamedSem, isNamedSem, hx]
    · simp [classifySemParams, absParams, isCtxNamedSem, isNamedSem, hx]
  | unnamed txt =>
    by_cases hl : tl.length + 1 = 1
    · simp [classifySemParams, absParams, isCtxNamedSem, isNamedSem, hl]
    · simp [classifySemParams, absParams, isCtxNamedSem, isNamedSem, hl]

/-- Result classification agrees under `resCompat`. -/
theorem classifyResults_agree (s : HandlerSignature) (rs : List (GoField × SemType))
    (hr : ∀ x ∈ rs, resCompat x.1.ty x.2) :
    classifyResults s (rs.map Prod.fst) = classifySemResults s (rs.map Prod.snd) := by
  cases rs with
  | nil => rfl
  | cons hd tl =>
    cases tl with
    | nil =>
      obtain ⟨g, t⟩ := hd
      have hco := hr (g, t) (by simp)
      by_cases hx : g.ty = GoType.ident "error"
      · have ht : t.str = "error" := hco.mp hx
        simp [classifyResults, classifySemResults, hx, ht]
      · have ht : ¬ t.str = "error" := fun hh => hx (hco.mpr hh)
        simp [classifyResults, classifySemResults, hx, ht]
    | cons hd2 tl2 =>
      cases tl2 with
      | nil => rfl
      | cons hd3 tl3 => rfl

/-- C3 (amended): the local AST strategy and the cross-module
type-checker strategy produce identical SignatureModels for every
declaration whose type spellings and type-checker resolutions classify
consistently (each parameter field binding one parameter): spelled
`context.Context` iff resolved to the context package's `Context`,
spelled as a selector iff resolved to a named type, and a sole result
spelled `error` iff resolved to the `error` type.  A file that imports
the context package under a non-default alias breaks the first
condition and the strategies then disagree (see the counterexample). -/
theorem claim3_agreement (ps rs : List (GoField × SemType))
    (hp : ∀ x ∈ ps, tyCompat x.1.ty x.2) (hr : ∀ x ∈ rs, resCompat x.1.ty x.2) :
    classifyFuncDecl (ps.map Prod.fst) (rs.map Prod.fst)
      = classifySemSig (ps.map Prod.snd) (rs.map Prod.snd) := by
  unfold classifyFuncDecl classifySemSig
  rw [classifyResults_agree _ rs hr]
  congr 1
  cases ps with
  | nil => rfl
  | cons hd tl =>
    obtain ⟨hctx, hsel⟩ := hp _ (List.mem_cons_self _ _)
    rw [List.map_cons, List.map_cons, classifyParams_abs, classifySemParams_abs,
      bool_eq_of_iff hctx, bool_eq_of_iff hsel, List.length_map, List.length_map]

/-- Witness for C3 at the canonical `(ctx, in) → (out, error)` shape of
`func h(ctx context.Context, in []byte) (json.RawMessage, error)`,
resolved without aliases. -/
theorem claim3_witness :
    (∀ x ∈ ([(⟨["ctx"], .sel (.ident "context") "Context"⟩, .named (some "context") "Context"),
             (⟨["in"], .otherTy⟩, .unnamed "[]byte")] :
        List (GoField × SemType)), tyCompat x.1.ty x.2) ∧
    (∀ x ∈ ([(⟨[], .sel (.ident "json") "RawMessage"⟩, .named (some "encoding/json") "RawMessage"),
             (⟨[], .ident "error"⟩, .named none "error")] :
        List (GoField × SemType)), resCompat x.1.ty x.2) ∧
    classifyFuncDecl
        [⟨["ctx"], .sel (.ident "context") "Context"⟩, ⟨["in"], .otherTy⟩]
        [⟨[], .sel (.ident "json") "RawMessage"⟩, ⟨[], .ident "error"⟩]
      = classifySemSig
        [.named (some "context") "Context", .unnamed "[]byte"]
        [.named (some "encoding/json") "RawMessage", .named none "error"] :=
  ⟨by decide, by decide,
   claim3_agreement
     [(⟨["ctx"], .sel (.ident "context") "Context"⟩, .named (some "context") "Context"),
      (⟨["in"], .otherTy⟩, .unnamed "[]byte")]
     [(⟨[], .sel (.ident "json") "RawMessage"⟩, .named (some "encoding/json") "RawMessage"),
      (⟨[], .ident "error"⟩, .named none "error")]
     (by decide) (by decide)⟩

/-- Counterexample to C5: a `main` whose only `lambda.Start` call has a
literal argument.  The claim requires a distinct
`UnsupportedHandlerExpression` failure; the code has no such error - the
unsupported argument is skipped and the run fails with the very same
`StartCallNotFound` error produced when no start call exists at all. -/
theorem claim5_counterexample :
    findLambdaHandler (mkMainOnly [startCallStmt [.lit "INT" "5"]])
        = .startCallNotFound ∧
      findLambdaHandler (mkMainOnly []) = .startCallNotFound :=
  ⟨rfl, rfl⟩

theorem pick_none (x : Option HandlerReference) : pick x none = x := by
  cases x <;> rfl

/-- C5 (amended): `findLambdaHandler` fails with `EntryNotFound` exactly
when no function declaration named `main` exists; for a file whose one
`main` has a body, it fails with `StartCallNotFound` exactly when the
body scan finds no `lambda.Start` call with a supported argument
(zero-argument calls and unsupported argument shapes are skipped and
produce that same error, never a distinct one), and otherwise succeeds
with the reference recorded by the scan (bare identifier:
`simpleName = qualifiedName`; selector: `simpleName = Sel`,
`qualifiedName = pkg.Sel`; the last supported call wins). -/
theorem claim5_characterization (f : GoFile) :
    (findLambdaHandler f = .entryNotFound ↔ mainBodies f = []) ∧
    (∀ b : List GoStmt, mainBodies f = [some b] →
      findLambdaHandler f =
        (match scanStmts b with
         | none => FindOutcome.startCallNotFound
         | some r => FindOutcome.ok r)) := by
  have hlet : findLambdaHandler f =
      (if (mainBodies f).isEmpty then .entryNotFound
       else match runMains none (mainBodies f) with
            | none => .crash
            | some none => .startCallNotFound
            | some (some r) => .ok r) := rfl
  constructor
  · rw [hlet]
    cases hms : mainBodies f with
    | nil => simp
    | cons hd tl =>
      simp only [List.isEmpty_cons, Bool.false_eq_true, if_false]
      constructor
      · intro h
        cases hr : runMains none (hd :: tl) with
        | none => rw [hr] at h; exact absurd h (by simp)
        | some o =>
          cases o with
          | none => rw [hr] at h; exact absurd h (by simp)
          | some r => rw [hr] at h; exact absurd h (by simp)
      · intro h
        exact absurd h (by simp)
  · intro b hb
    rw [hlet, hb]
    have hrun : runMains none [some b] = some (scanStmts b) := by
      simp [runMains, pick_none]
    rw [hrun]
    cases hsb : scanStmts b <;> simp

/-- Witness for C5 on a file whose `main` calls
`lambda.Start(handleRequest)`. -/
theorem claim5_witness :
    mainBodies (mkMainOnly [startCallStmt [.ident "handleRequest"]])
        = [some [startCallStmt [.ident "handleRequest"]]] ∧
      findLambdaHandler (mkMainOnly [startCallStmt [.ident "handleRequest"]])
        = .ok ⟨"handleRequest", "handleRequest"⟩ :=
  ⟨rfl,
   (claim5_characterization (mkMainOnly [startCallStmt [.ident "handleRequest"]])).2
     [startCallStmt [.ident "handleRequest"]] rfl⟩

theorem scanStmtList_append (xs ys : List GoStmt) (acc : Option HandlerReference) :
    scanStmtList (xs ++ ys) acc = scanStmtList ys (scanStmtList xs acc) := by
  induction xs generalizing acc with
  | nil => rfl
  | cons s rest ih => simp [scanStmtList, ih]

theorem find_mkMainOnly (b : List GoStmt) :
    findLambdaHandler (mkMainOnly b) =
      (match scanStmts b with
       | none => FindOutcome.startCallNotFound
       | some r => FindOutcome.ok r) := by
  have hlet : findLambdaHandler (mkMainOnly b) =
      (match runMains none [some b] with
       | none => FindOutcome.crash
       | some none => FindOutcome.startCallNotFound
       | some (some r) => FindOutcome.ok r) := rfl
  rw [hlet]
  have hrun : runMains none [some b] = some (scanStmts b) := by
    simp [runMains, pick_none]
  rw [hrun]
  cases scanStmts b <;> rfl

/-- C10: a `lambda.Start` call with zero arguments inside the entry
function is silently skipped - it produces no HandlerReference and no
distinct error, the search continues, and removing the zero-argument
call from the body never changes the outcome; in particular, when it is
the only start call the run fails with the same `StartCallNotFound`
error as when no start call is present at all (and `findLambdaHandler`
reads the file without mutating it). -/
theorem claim10_zero_arg_skip :
    (∀ pre post : List GoStmt,
        findLambdaHandler (mkMainOnly (pre ++ [startCallStmt []] ++ post))
          = findLambdaHandler (mkMainOnly (pre ++ post))) ∧
      findLambdaHandler (mkMainOnly [startCallStmt []]) = .startCallNotFound := by
  constructor
  · intro pre post
    have hscan : scanStmts (pre ++ [startCallStmt []] ++ post) = scanStmts (pre ++ post) := by
      unfold scanStmts
      rw [scanStmtList_append, scanStmtList_append, scanStmtList_append]
      congr 1
    rw [find_mkMainOnly, find_mkMainOnly, hscan]
  · rfl

/-- A run-time iteration order of the requirement-table map (the five
paths in the table's textual order). -/
def mapOrderA : List String :=
  ["context", "net/http", "io", "encoding/json", "log"]

/-- Another legal iteration order of the same map. -/
def mapOrderB : List String :=
  ["log", "encoding/json", "io", "net/http", "context"]

/-- C6: the failing input - one import block holding only the
start-framework import, a second import block holding another
`aws-lambda-go` import, then a further declaration.  Removing the first
(emptied) block shifts the slice under the `range` loop, the loop skips
the second block, and an import whose path contains `aws-lambda-go`
survives the rewrite, contradicting the claim. -/
theorem claim6_failing_eval :
    (removeLambdaImport
        ⟨[.impDecl [⟨none, "github.com/aws/aws-lambda-go/lambda"⟩],
          .impDecl [⟨none, "github.com/aws/aws-lambda-go/events"⟩],
          .otherDecl 0]⟩).map impPathsOf
      = some [["github.com/aws/aws-lambda-go/events"], []] ∧
    (removeLambdaImport
        ⟨[.impDecl [⟨none, "github.com/aws/aws-lambda-go/lambda"⟩],
          .impDecl [⟨none, "github.com/aws/aws-lambda-go/events"⟩],
          .otherDecl 0]⟩).map hasLambdaImportPath = some true :=
  ⟨rfl, rfl⟩

/-- C8: the failing input for determinism - a file whose handler needs
all five support modules but imports only context and encoding/json, so
three imports are missing.  The missing imports are collected by
iterating a Go map; its iteration order is randomized per run, and two
legal orders of the same five keys yield files whose import paths
differ, so two runs of the transform need not be byte-identical. -/
theorem claim8_order_dependence :
    List.Perm mapOrderA mapOrderB ∧
    (transformAST mapOrderA
        ⟨[.impDecl [⟨none, "context"⟩, ⟨none, "encoding/json"⟩,
            ⟨none, "github.com/aws/aws-lambda-go/lambda"⟩],
          .funcDecl none "main" [] [] (some [startCallStmt [.ident "handleRequest"]]),
          .funcDecl none "handleRequest"
            [⟨["ctx"], .sel (.ident "context") "Context"⟩, ⟨["event"], .otherTy⟩]
            [⟨[], .otherTy⟩, ⟨[], .ident "error"⟩] (some [])]⟩
        "handleRequest" ⟨true, true, true, true⟩).map impPathsOf
      ≠ (transformAST mapOrderB
        ⟨[.impDecl [⟨none, "context"⟩, ⟨none, "encoding/json"⟩,
            ⟨none, "github.com/aws/aws-lambda-go/lambda"⟩],
          .funcDecl none "main" [] [] (some [startCallStmt [.ident "handleRequest"]]),
          .funcDecl none "handleRequest"
            [⟨["ctx"], .sel (.ident "context") "Context"⟩, ⟨["event"], .otherTy⟩]
            [⟨[], .otherTy⟩, ⟨[], .ident "error"⟩] (some [])]⟩
        "handleRequest" ⟨true, true, true, true⟩).map impPathsOf := by
  constructor
  · decide
  · decide

/-- A file importing every support module under a non-default alias
(and the start-framework import), with an error-only handler. -/
def aliasedImpsInput : GoFile :=
  ⟨[.impDecl [⟨some "ctx2", "context"⟩, ⟨some "myhttp", "net/http"⟩,
      ⟨some "myio", "io"⟩, ⟨some "myjson", "encoding/json"⟩, ⟨some "mylog", "log"⟩],
    .funcDecl none "main" [] [] (some [startCallStmt [.ident "handleRequest"]]),
    .funcDecl none "handleRequest" [] [⟨[], .ident "error"⟩] (some [])]⟩

/-- Counterexample to C7: a file that imports `log` under the alias
`mylog` (and already has context and net/http).  The synthesized
dispatch method's error guard calls `Printf` through the hardcoded
identifier `log`, not through the file's alias `mylog` - the rewriter
captures aliases only for context, net/http and io, and
`createHandleMethod` never receives log or json aliases. -/
theorem claim7_counterexample :
    declaredAliasFor
        ⟨[.impDecl [⟨some "mylog", "log"⟩,
            ⟨none, "github.com/aws/aws-lambda-go/lambda"⟩,
            ⟨none, "context"⟩, ⟨none, "net/http"⟩],
          .funcDecl none "main" [] [] (some [startCallStmt [.ident "handleRequest"]]),
          .funcDecl none "handleRequest" [] [⟨[], .ident "error"⟩] (some [])]⟩ "log"
      = some "mylog" ∧
    (transformAST mapOrderA
        ⟨[.impDecl [⟨some "mylog", "log"⟩,
            ⟨none, "github.com/aws/aws-lambda-go/lambda"⟩,
            ⟨none, "context"⟩, ⟨none, "net/http"⟩],
          .funcDecl none "main" [] [] (some [startCallStmt [.ident "handleRequest"]]),
          .funcDecl none "handleRequest" [] [⟨[], .ident "error"⟩] (some [])]⟩
        "handleRequest" ⟨false, false, false, true⟩).bind handleGuardLogName
      = some "log" ∧
    ("log" : String) ≠ "mylog" :=
  ⟨rfl, rfl, by decide⟩

/-- C7 (amended): alias reuse covers exactly the three aliases the
rewriter returns - context, net/http, io: the synthesized method's
parameter types use the context and HTTP aliases it is given, and the
body-read uses the io alias; the guard's logging call and the encoding
call always use the hardcoded identifiers `log` and `json` (the fixed
statements `errGuardStmt` and `encodeResultStmt`), whatever the file's
aliases are; and the rewriter returns the file's captured aliases, as
the concrete aliased file shows. -/
theorem claim7_alias_use (nm ca ha ia : String) (sig : HandlerSignature) :
    declParamsOf (createHandleMethod nm ca ha ia sig) = handleMethodParams ca ha ∧
    (sig.hasInput = true →
      bodyHead (createHandleMethod nm ca ha ia sig) = some (readBodyStmt ia)) ∧
    (sig.hasError = true →
      guardOf (createHandleMethod nm ca ha ia sig) = some errGuardStmt) ∧
    (sig.hasOutput = true →
      bodyLast (createHandleMethod nm ca ha ia sig) = some encodeResultStmt) ∧
    ((addRequiredImports mapOrderA aliasedImpsInput ⟨true, true, true, true⟩).ctxAlias,
     (addRequiredImports mapOrderA aliasedImpsInput ⟨true, true, true, true⟩).httpAlias,
     (addRequiredImports mapOrderA aliasedImpsInput ⟨true, true, true, true⟩).ioAlias)
      = ("ctx2", "myhttp", "myio") := by
  obtain ⟨c, i, o, e⟩ := sig
  cases c <;> cases i <;> cases o <;> cases e <;>
    (refine ⟨rfl, ?_, ?_, ?_, rfl⟩ <;> intro h <;> first | rfl | simp at h)

/-- Witness for C7 at the all-flags shape with aliased context, HTTP
and io modules. -/
theorem claim7_witness :
    (⟨true, true, true, true⟩ : HandlerSignature).hasInput = true ∧
      bodyHead (createHandleMethod "handleRequest" "ctx2" "myhttp" "myio"
          ⟨true, true, true, true⟩) = some (readBodyStmt "myio") ∧
      guardOf (createHandleMethod "handleRequest" "ctx2" "myhttp" "myio"
          ⟨true, true, true, true⟩) = some errGuardStmt :=
  ⟨rfl,
   (claim7_alias_use "handleRequest" "ctx2" "myhttp" "myio" ⟨true, true, true, true⟩).2.1 rfl,
   (claim7_alias_use "handleRequest" "ctx2" "myhttp" "myio" ⟨true, true, true, true⟩).2.2.1 rfl⟩

/-! Helper lemmas for the frame property of the transform. -/

theorem take_set_of_le {α : Type} (l : List α) (i n : Nat) (v : α) (h : n ≤ i) :
    (l.set i v).take n = l.take n := by
  induction l generalizing i n with
  | nil => simp
  | cons a l ih =>
    cases i with
    | zero =>
      have : n = 0 := Nat.le_zero.mp h
      subst this
      simp
    | succ j =>
      cases n with
      | zero => simp
      | succ m =>
        simp only [List.set_cons_succ, List.take_succ_cons]
        rw [ih j m (Nat.le_of_succ_le_succ h)]

theorem take_set_of_lt {α : Type} (l : List α) (i n : Nat) (v : α) (h : i < n) :
    (l.set i v).take n = (l.take n).set i v := by
  induction l generalizing i n with
  | nil => simp
  | cons a l ih =>
    cases i with
    | zero =>
      cases n with
      | zero => exact absurd h (by omega)
      | succ m => simp
    | succ j =>
      cases n with
      | zero => exact absurd h (by omega)
      | succ m =>
        simp only [List.set_cons_succ, List.take_succ_cons]
        rw [ih j m (by omega)]

theorem get?_take_of_lt {α : Type} (l : List α) (i n : Nat) (h : i < n) :
    (l.take n).get? i = l.get? i := by
  induction l generalizing i n with
  | nil => simp
  | cons a l ih =>
    cases n with
    | zero => exact absurd h (by omega)
    | succ m =>
      cases i with
      | zero => simp
      | succ j =>
        simp only [List.take_succ_cons, List.get?_cons_succ]
        exact ih j m (by omega)

theorem nonImp_set_imp (l : List GoDecl) (i : Nat) (sp1 sp2 : List ImpSpec)
    (h : l.get? i = some (.impDecl sp1)) :
    nonImpDecls (l.set i (.impDecl sp2)) = nonImpDecls l := by
  induction l generalizing i with
  | nil => simp at h
  | cons d l ih =>
    cases i with
    | zero =>
      have hd : d = .impDecl sp1 := by
        simpa using h
      subst hd
      simp [nonImpDecls, List.filter_cons]
    | succ j =>
      simp only [List.set_cons_succ]
      have hj : l.get? j = some (.impDecl sp1) := by simpa using h
      have hrec := ih j hj
      simp only [nonImpDecls] at hrec ⊢
      simp only [List.filter_cons, hrec]

theorem nonImp_middle_imp (x y : List GoDecl) (sp : List ImpSpec) :
    nonImpDecls (x ++ GoDecl.impDecl sp :: y) = nonImpDecls (x ++ y) := by
  simp [nonImpDecls, List.filter_append, List.filter_cons]

theorem rliStep_nonImp (b : List GoDecl) (c i : Nat) (b1 : List GoDecl) (c1 : Nat)
    (hc : c ≤ b.length) (h : rliStep b c i = some (b1, c1)) :
    nonImpDecls (b1.take c1) = nonImpDecls (b.take c) ∧ c1 ≤ b1.length := by
  unfold rliStep at h
  cases hg : b.get? i with
  | none =>
    rw [hg] at h
    simp only [Option.some.injEq, Prod.mk.injEq] at h
    obtain ⟨h1, h2⟩ := h
    subst h1; subst h2
    exact ⟨rfl, hc⟩
  | some d =>
    rw [hg] at h
    cases d with
    | funcDecl recv n ps rs body =>
      simp only [Option.some.injEq, Prod.mk.injEq] at h
      obtain ⟨h1, h2⟩ := h
      subst h1; subst h2
      exact ⟨rfl, hc⟩
    | typeStructDecl n =>
      simp only [Option.some.injEq, Prod.mk.injEq] at h
      obtain ⟨h1, h2⟩ := h
      subst h1; subst h2
      exact ⟨rfl, hc⟩
    | otherDecl t =>
      simp only [Option.some.injEq, Prod.mk.injEq] at h
      obtain ⟨h1, h2⟩ := h
      subst h1; subst h2
      exact ⟨rfl, hc⟩
    | impDecl specs =>
      dsimp only at h
      by_cases he : (filterLambdaSpecs specs).isEmpty
      · rw [if_pos he] at h
        by_cases hic : i + 1 ≤ c
        · rw [if_pos hic] at h
          simp only [Option.some.injEq, Prod.mk.injEq] at h
          obtain ⟨h1, h2⟩ := h
          subst h1; subst h2
          have hilt : i < b.length := by omega
          have hbo : b[i]? = some (GoDecl.impDecl specs) := by
            rw [← List.get?_eq_getElem?]
            exact hg
          have hbi : b[i] = GoDecl.impDecl specs := by
            rw [List.getElem?_eq_getElem hilt] at hbo
            exact Option.some.inj hbo
          have len1 : (b.take i).length = i := by
            rw [List.length_take]; omega
          have len2 : ((b.drop (i + 1)).take (c - 1 - i)).length = c - 1 - i := by
            rw [List.length_take, List.length_drop]; omega
          have lenA : (b.take i ++ (b.drop (i + 1)).take (c - 1 - i)).length = c - 1 := by
            rw [List.length_append, len1, len2]; omega
          constructor
          · have htake : (b.take i ++ (b.drop (i + 1)).take (c - 1 - i) ++ b.drop (c - 1)).take (c - 1)
                = b.take i ++ (b.drop (i + 1)).take (c - 1 - i) := by
              rw [List.take_append_eq_append_take, List.take_of_length_le (Nat.le_of_eq lenA),
                lenA, Nat.sub_self]
              simp
            have hsplit : b.take c
                = b.take i ++ GoDecl.impDecl specs :: (b.drop (i + 1)).take (c - 1 - i) := by
              conv_lhs => rw [show c = i + (c - i) from by omega]
              rw [List.take_add]
              congr 1
              rw [List.drop_eq_getElem_cons hilt, hbi]
              rw [show c - i = (c - 1 - i) + 1 from by omega, List.take_succ_cons]
            rw [htake, hsplit, nonImp_middle_imp]
          · rw [List.length_append, lenA, List.length_drop]
            omega
        · rw [if_neg hic] at h
          exact absurd h (by simp)
      · rw [if_neg he] at h
        simp only [Option.some.injEq, Prod.mk.injEq] at h
        obtain ⟨h1, h2⟩ := h
        subst h1; subst h2
        constructor
        · by_cases hlt : i < c
          · rw [take_set_of_lt _ _ _ _ hlt]
            refine nonImp_set_imp (b.take c) i specs (filterLambdaSpecs specs) ?_
            rw [get?_take_of_lt _ _ _ hlt]
            exact hg
          · rw [take_set_of_le _ _ _ _ (by omega)]
        · simpa using hc

theorem rliLoop_nonImp (steps : Nat) :
    ∀ (i : Nat) (b : List GoDecl) (c : Nat) (b2 : List GoDecl) (c2 : Nat),
      c ≤ b.length →
      rliLoop steps i b c = some (b2, c2) →
      nonImpDecls (b2.take c2) = nonImpDecls (b.take c) := by
  induction steps with
  | zero =>
    intro i b c b2 c2 hc h
    simp only [rliLoop, Option.some.injEq, Prod.mk.injEq] at h
    obtain ⟨h1, h2⟩ := h
    subst h1; subst h2
    rfl
  | succ steps ih =>
    intro i b c b2 c2 hc h
    simp only [rliLoop] at h
    cases hstep : rliStep b c i with
    | none => rw [hstep] at h; exact absurd h (by simp)
    | some p =>
      obtain ⟨b1, c1⟩ := p
      rw [hstep] at h
      obtain ⟨hstepEq, hlen⟩ := rliStep_nonImp b c i b1 c1 hc hstep
      rw [← hstepEq]
      exact ih (i + 1) b1 c1 b2 c2 hlen h

theorem removeLambdaImport_nonImp (f f1 : GoFile)
    (h : removeLambdaImport f = some f1) :
    nonImpDecls f1.decls = nonImpDecls f.decls := by
  unfold removeLambdaImport at h
  cases hrun : rliLoop f.decls.length 0 f.decls f.decls.length with
  | none => rw [hrun] at h; exact absurd h (by simp)
  | some p =>
    obtain ⟨b2, c2⟩ := p
    rw [hrun] at h
    simp only [Option.map_some', Option.some.injEq] at h
    have := rliLoop_nonImp f.decls.length 0 f.decls f.decls.length b2 c2 (Nat.le_refl _) hrun
    rw [List.take_length] at this
    rw [← h]
    exact this

theorem addSpecsToFirstImp_nonImp (ds : List GoDecl) (ns : List ImpSpec)
    (ds2 : List GoDecl) (h : addSpecsToFirstImp ds ns = some ds2) :
    nonImpDecls ds2 = nonImpDecls ds := by
  induction ds generalizing ds2 with
  | nil => simp [addSpecsToFirstImp] at h
  | cons d rest ih =>
    cases d with
    | impDecl specs =>
      simp only [addSpecsToFirstImp, Option.some.injEq] at h
      subst h
      simp [nonImpDecls, List.filter_cons]
    | funcDecl recv n ps rs body =>
      simp only [addSpecsToFirstImp] at h
      cases hrec : addSpecsToFirstImp rest ns with
      | none => rw [hrec] at h; exact absurd h (by simp)
      | some ds' =>
        rw [hrec] at h
        simp only [Option.some.injEq] at h
        subst h
        simp only [nonImpDecls, List.filter_cons]
        have := ih ds' hrec
        simp only [nonImpDecls] at this
        simp [this]
    | typeStructDecl n =>
      simp only [addSpecsToFirstImp] at h
      cases hrec : addSpecsToFirstImp rest ns with
      | none => rw [hrec] at h; exact absurd h (by simp)
      | some ds' =>
        rw [hrec] at h
        simp only [Option.some.injEq] at h
        subst h
        simp only [nonImpDecls, List.filter_cons]
        have := ih ds' hrec
        simp only [nonImpDecls] at this
        simp [this]
    | otherDecl t =>
      simp only [addSpecsToFirstImp] at h
      cases hrec : addSpecsToFirstImp rest ns with
      | none => rw [hrec] at h; exact absurd h (by simp)
      | some ds' =>
        rw [hrec] at h
        simp only [Option.some.injEq] at h
        subst h
        simp only [nonImpDecls, List.filter_cons]
        have := ih ds' hrec
        simp only [nonImpDecls] at this
        simp [this]

theorem addRequiredImports_nonImp (order : List String) (f : GoFile)
    (sig : HandlerSignature) :
    nonImpDecls (addRequiredImports order f sig).file.decls = nonImpDecls f.decls := by
  unfold addRequiredImports
  dsimp only
  by_cases hm : (missingOf order (scanInfos f sig)).isEmpty
  · rw [if_pos hm]
  · rw [if_neg hm]
    cases hadd : addSpecsToFirstImp f.decls
        ((missingOf order (scanInfos f sig)).map (fun p => ⟨none, p⟩)) with
    | none =>
      simp [nonImpDecls, List.filter_cons]
    | some ds' =>
      exact addSpecsToFirstImp_nonImp _ _ _ hadd

theorem spliceAtFirstMain_eq (ds : List GoDecl) (a b c : GoDecl) :
    ∀ i : Nat, firstMainIdx ds = some i →
      spliceAtFirstMain ds a b c = ds.take i ++ [a, b, c] ++ ds.drop (i + 1) := by
  induction ds with
  | nil => intro i hi; simp [firstMainIdx] at hi
  | cons d rest ih =>
    intro i hi
    rw [firstMainIdx, List.findIdx?_cons] at hi
    by_cases hd : isMainFunc d = true
    · rw [if_pos hd] at hi
      have h0 : i = 0 := by
        have := Option.some.inj hi
        omega
      subst h0
      simp [spliceAtFirstMain, hd]
    · rw [if_neg hd] at hi
      rw [List.findIdx?_succ] at hi
      cases hrec : rest.findIdx? isMainFunc with
      | none => rw [hrec] at hi; exact absurd hi (by simp)
      | some j =>
        rw [hrec] at hi
        simp only [Option.map_some', Option.some.injEq] at hi
        subst hi
        simp only [spliceAtFirstMain, hd, if_false, List.take_succ_cons, List.drop_succ_cons]
        rw [ih j hrec]
        simp

/-- C9: `transformAST` replaces the declaration at the index of the
first function named `main` (its position after import rewriting) with
the three synthesized declarations - adapter type, constructor,
dispatch method, in that order - at that same position, and the
non-import declarations before and after are exactly the input's
non-import declarations in their original relative order (only import
declarations are edited by the import rewriter). -/
theorem claim9_frame (order : List String) (f : GoFile) (nm : String)
    (sig : HandlerSignature) (f1 : GoFile) (h1 : removeLambdaImport f = some f1)
    (i : Nat)
    (hi : firstMainIdx (addRequiredImports order f1 sig).file.decls = some i) :
    transformAST order f nm sig =
      some ⟨(addRequiredImports order f1 sig).file.decls.take i
          ++ [createHandlerStruct, createNewFunc,
              createHandleMethod nm (addRequiredImports order f1 sig).ctxAlias
                (addRequiredImports order f1 sig).httpAlias
                (addRequiredImports order f1 sig).ioAlias sig]
          ++ (addRequiredImports order f1 sig).file.decls.drop (i + 1)⟩ ∧
    nonImpDecls (addRequiredImports order f1 sig).file.decls = nonImpDecls f.decls := by
  constructor
  · unfold transformAST
    rw [h1]
    dsimp only
    rw [spliceAtFirstMain_eq _ _ _ _ i hi]
  · rw [addRequiredImports_nonImp]
    exact removeLambdaImport_nonImp f f1 h1

/-- Input file for the C9 witness: the start-framework import block,
`main`, and an error-only handler. -/
def c9input : GoFile :=
  ⟨[.impDecl [⟨none, "github.com/aws/aws-lambda-go/lambda"⟩],
    .funcDecl none "main" [] [] (some [startCallStmt [.ident "handleRequest"]]),
    .funcDecl none "handleRequest" [] [⟨[], .ident "error"⟩] (some [])]⟩

/-- The C9 witness input after lambda-import removal. -/
def c9mid : GoFile :=
  ⟨[.funcDecl none "main" [] [] (some [startCallStmt [.ident "handleRequest"]]),
    .funcDecl none "handleRequest" [] [⟨[], .ident "error"⟩] (some [])]⟩

/-- Witness for C9 on a concrete file: `main` sits at index 1 after the
rewriting of imports and is replaced in place by the three synthesized
declarations, with the non-import declarations preserved. -/
theorem claim9_witness :
    removeLambdaImport c9input = some c9mid ∧
    firstMainIdx (addRequiredImports mapOrderA c9mid
        ⟨false, false, false, true⟩).file.decls = some 1 ∧
    (transformAST mapOrderA c9input "handleRequest" ⟨false, false, false, true⟩ =
      some ⟨(addRequiredImports mapOrderA c9mid
              ⟨false, false, false, true⟩).file.decls.take 1
          ++ [createHandlerStruct, createNewFunc,
              createHandleMethod "handleRequest"
                (addRequiredImports mapOrderA c9mid ⟨false, false, false, true⟩).ctxAlias
                (addRequiredImports mapOrderA c9mid ⟨false, false, false, true⟩).httpAlias
                (addRequiredImports mapOrderA c9mid ⟨false, false, false, true⟩).ioAlias
                ⟨false, false, false, true⟩]
          ++ (addRequiredImports mapOrderA c9mid
              ⟨false, false, false, true⟩).file.decls.drop (1 + 1)⟩ ∧
      nonImpDecls (addRequiredImports mapOrderA c9mid
          ⟨false, false, false, true⟩).file.decls = nonImpDecls c9input.decls) :=
  ⟨rfl, rfl,
   claim9_frame mapOrderA c9input "handleRequest" ⟨false, false, false, true⟩
     c9mid rfl 1 rfl⟩

end LambdaMigrator
